import Mathlib

/-!
Verification of the zuko tutorial notebook (`docs/tutorials/basics.ipynb`).

The notebook demonstrates scalar `torch.distributions.Normal` and
`torch.distributions.AffineTransform` objects, the `zuko.distributions.NormalizingFlow`
combination of a base distribution with an invertible transformation, and the
lazy-parametrization pattern (`zuko.flows.LazyDistribution`) via a `GaussianModel`
hyper-network. We embed these scalar operations over `ℝ`; randomness is made
explicit by passing the underlying standard draw `u : ℝ` to sampling functions.
-/

set_option linter.unusedVariables false

namespace Zuko

open Real

/-- Modelled from the spec: `torch.distributions.Transform` — a bijective map with a
forward call, an inverse call, and `log_abs_det_jacobian` (notebook cell 4). -/
structure Transform where
  forward : ℝ → ℝ
  inv : ℝ → ℝ
  log_abs_det_jacobian : ℝ → ℝ → ℝ

/-- Modelled from the spec: a `torch.distributions.Distribution` exposes `sample` and
`log_prob` (notebook cell 2); `sample` consumes an explicit source of randomness `u`. -/
structure Distribution where
  sample : ℝ → ℝ
  log_prob : ℝ → ℝ

/-- Modelled from the spec: `torch.distributions.AffineTransform(loc, scale)`,
the map `y = loc + scale * x` of notebook cell 5. -/
structure AffineTransform where
  loc : ℝ
  scale : ℝ

/-- Forward call `y = loc + scale * x`. -/
noncomputable def AffineTransform.forward (t : AffineTransform) (x : ℝ) : ℝ :=
  t.loc + t.scale * x

/-- Inverse call `x = (y - loc) / scale`. -/
noncomputable def AffineTransform.inv (t : AffineTransform) (y : ℝ) : ℝ :=
  (y - t.loc) / t.scale

/-- Log-absolute-determinant of the Jacobian of the affine map: `log |scale|`. -/
noncomputable def AffineTransform.log_abs_det_jacobian (t : AffineTransform) (x y : ℝ) : ℝ :=
  Real.log |t.scale|

/-- The affine transform packaged as a generic `Transform`. -/
noncomputable def AffineTransform.toTransform (t : AffineTransform) : Transform where
  forward := t.forward
  inv := t.inv
  log_abs_det_jacobian := t.log_abs_det_jacobian

/-- Modelled from the spec: `torch.distributions.Normal(loc, scale)` (notebook cell 3). -/
structure NormalDist where
  loc : ℝ
  scale : ℝ

/-- Log-density of the normal distribution, as the framework computes it:
`-((x - loc)^2) / (2 * scale^2) - log scale - log (sqrt (2 * π))`. -/
noncomputable def NormalDist.log_prob (d : NormalDist) (x : ℝ) : ℝ :=
  -((x - d.loc) ^ 2) / (2 * d.scale ^ 2) - Real.log d.scale - Real.log (Real.sqrt (2 * π))

/-- Reparametrized sampling: `rsample u = loc + scale * u` where `u` is a standard
normal draw. -/
noncomputable def NormalDist.rsample (d : NormalDist) (u : ℝ) : ℝ :=
  d.loc + d.scale * u

/-- Plain sampling draws the same value as `rsample` (but detached from the
computation graph, see the tracked-tensor model below). -/
noncomputable def NormalDist.sample (d : NormalDist) (u : ℝ) : ℝ :=
  d.rsample u

/-- The normal distribution packaged as a generic `Distribution`. -/
noncomputable def NormalDist.toDistribution (d : NormalDist) : Distribution where
  sample := d.sample
  log_prob := d.log_prob

/-- Modelled from the spec: `zuko.distributions.NormalizingFlow(transform, base)` —
the distribution obtained by pushing `base` through the inverse of `transform`
(notebook cells 6–7). -/
structure NormalizingFlow where
  transform : Transform
  base : Distribution

/-- Flow log-density by the change of variables formula:
`log p(X = x) = log p(Z = f(x)) + log |det df(x)/dx|`. -/
noncomputable def NormalizingFlow.log_prob (f : NormalizingFlow) (x : ℝ) : ℝ :=
  f.base.log_prob (f.transform.forward x) + f.transform.log_abs_det_jacobian x (f.transform.forward x)

/-- Flow sampling: draw `z` from the base distribution and apply the inverse
transformation, `x = f⁻¹(z)`. -/
noncomputable def NormalizingFlow.sample (f : NormalizingFlow) (u : ℝ) : ℝ :=
  f.transform.inv (f.base.sample u)

/-- C2: an affine transformation with nonzero scale is invertible: applying the
inverse to the forward result returns the input; moreover `log_abs_det_jacobian x y`
returns `log |scale|`, where `scale` is exactly the derivative (the 1×1 Jacobian
determinant) of the forward map at `x`. -/
theorem affine_transform_contract (loc scale x : ℝ) (hs : scale ≠ 0) :
    (AffineTransform.mk loc scale).inv ((AffineTransform.mk loc scale).forward x) = x ∧
    (AffineTransform.mk loc scale).log_abs_det_jacobian x
      ((AffineTransform.mk loc scale).forward x) = Real.log |scale| ∧
    HasDerivAt (AffineTransform.mk loc scale).forward scale x := by
  refine ⟨?_, rfl, ?_⟩
  · simp only [AffineTransform.forward, AffineTransform.inv]
    field_simp
  · have h : HasDerivAt (fun x : ℝ => loc + scale * x) (scale * 1) x :=
      ((hasDerivAt_id x).const_mul scale).const_add loc
    simpa [AffineTransform.forward] using h

/-- Witness for C2 at the notebook's values `loc = 2`, `scale = 3`, `x = 1`. -/
theorem affine_transform_contract_witness :
    (3 : ℝ) ≠ 0 ∧
    ((AffineTransform.mk 2 3).inv ((AffineTransform.mk 2 3).forward 1) = 1 ∧
     (AffineTransform.mk 2 3).log_abs_det_jacobian 1
       ((AffineTransform.mk 2 3).forward 1) = Real.log |(3 : ℝ)| ∧
     HasDerivAt (AffineTransform.mk 2 3).forward 3 1) :=
  ⟨by norm_num, affine_transform_contract 2 3 1 (by norm_num)⟩

/-- C6: the normal distribution holds its location and scale parameters; its
log-density is `-((x - μ)^2)/(2σ^2) - log (σ·√(2π))`, and a sample is the
realization `μ + σ·u` of the standard draw `u`. -/
theorem normal_log_prob_formula (μ σ x u : ℝ) (hσ : 0 < σ) :
    (NormalDist.mk μ σ).log_prob x =
      -((x - μ) ^ 2) / (2 * σ ^ 2) - Real.log (σ * Real.sqrt (2 * π)) ∧
    (NormalDist.mk μ σ).sample u = μ + σ * u := by
  constructor
  · have hσ' : σ ≠ 0 := ne_of_gt hσ
    have hsq : Real.sqrt (2 * π) ≠ 0 := by
      have : (0 : ℝ) < 2 * π := by positivity
      exact ne_of_gt (Real.sqrt_pos.mpr this)
    simp only [NormalDist.log_prob]
    rw [Real.log_mul hσ' hsq]
    ring
  · rfl

/-- Witness for C6 at `μ = 0`, `σ = 1`, `x = 0`, `u = 0`. -/
theorem normal_log_prob_formula_witness :
    (0 : ℝ) < 1 ∧
    ((NormalDist.mk 0 1).log_prob 0 =
       -(((0 : ℝ) - 0) ^ 2) / (2 * 1 ^ 2) - Real.log (1 * Real.sqrt (2 * π)) ∧
     (NormalDist.mk 0 1).sample 0 = 0 + 1 * 0) :=
  ⟨by norm_num, normal_log_prob_formula 0 1 0 0 (by norm_num)⟩

/-- C1: for the flow `NormalizingFlow(AffineTransform(loc, scale), Normal(μ, σ))` and
every point `x`, the flow log-density is the base log-density at `f(x)` plus
`log |det df(x)/dx|`; the 1×1 Jacobian determinant of `f` at `x` is `scale` (its
derivative), and exponentiating gives `p(X = x) = p(Z = f(x)) * |det df(x)/dx|`. -/
theorem flow_change_of_variables (loc scale μ σ x : ℝ) (hs : scale ≠ 0) :
    (NormalizingFlow.mk (AffineTransform.mk loc scale).toTransform
        (NormalDist.mk μ σ).toDistribution).log_prob x =
      (NormalDist.mk μ σ).log_prob ((AffineTransform.mk loc scale).forward x) +
        Real.log |scale| ∧
    HasDerivAt (AffineTransform.mk loc scale).forward scale x ∧
    Real.exp ((NormalizingFlow.mk (AffineTransform.mk loc scale).toTransform
        (NormalDist.mk μ σ).toDistribution).log_prob x) =
      Real.exp ((NormalDist.mk μ σ).log_prob ((AffineTransform.mk loc scale).forward x)) *
        |scale| := by
  refine ⟨rfl, ?_, ?_⟩
  · have h : HasDerivAt (fun x : ℝ => loc + scale * x) (scale * 1) x :=
      ((hasDerivAt_id x).const_mul scale).const_add loc
    simpa [AffineTransform.forward] using h
  · have habs : (0 : ℝ) < |scale| := abs_pos.mpr hs
    simp only [NormalizingFlow.log_prob, AffineTransform.toTransform,
      NormalDist.toDistribution, AffineTransform.log_abs_det_jacobian]
    rw [Real.exp_add, Real.exp_log habs]

/-- Witness for C1 at the notebook's values `loc = 2`, `scale = 3`, base `N(0, 1)`,
`x = 0`. -/
theorem flow_change_of_variables_witness :
    (3 : ℝ) ≠ 0 ∧
    ((NormalizingFlow.mk (AffineTransform.mk 2 3).toTransform
        (NormalDist.mk 0 1).toDistribution).log_prob 0 =
      (NormalDist.mk 0 1).log_prob ((AffineTransform.mk 2 3).forward 0) +
        Real.log |(3 : ℝ)| ∧
     HasDerivAt (AffineTransform.mk 2 3).forward 3 0 ∧
     Real.exp ((NormalizingFlow.mk (AffineTransform.mk 2 3).toTransform
        (NormalDist.mk 0 1).toDistribution).log_prob 0) =
      Real.exp ((NormalDist.mk 0 1).log_prob ((AffineTransform.mk 2 3).forward 0)) *
        |(3 : ℝ)|) :=
  ⟨by norm_num, flow_change_of_variables 2 3 0 1 0 (by norm_num)⟩

/-- The flow packaged as a generic `Distribution`: it exposes `sample` and
`log_prob` like any other distribution object. -/
noncomputable def NormalizingFlow.toDistribution (f : NormalizingFlow) : Distribution where
  sample := f.sample
  log_prob := f.log_prob

/-- C3: the flow is a distribution object exposing `sample` and `log_prob`; its
sampling draws a realization `z` from the base distribution and applies the inverse
transformation `x = f⁻¹(z)`; for nonzero scale the forward map carries the sample
back to the base draw. -/
theorem flow_sampling (loc scale μ σ u : ℝ) (hs : scale ≠ 0) :
    (NormalizingFlow.mk (AffineTransform.mk loc scale).toTransform
        (NormalDist.mk μ σ).toDistribution).toDistribution.sample u =
      (AffineTransform.mk loc scale).inv ((NormalDist.mk μ σ).sample u) ∧
    (NormalizingFlow.mk (AffineTransform.mk loc scale).toTransform
        (NormalDist.mk μ σ).toDistribution).toDistribution.log_prob =
      (NormalizingFlow.mk (AffineTransform.mk loc scale).toTransform
        (NormalDist.mk μ σ).toDistribution).log_prob ∧
    (AffineTransform.mk loc scale).forward
        ((NormalizingFlow.mk (AffineTransform.mk loc scale).toTransform
          (NormalDist.mk μ σ).toDistribution).toDistribution.sample u) =
      (NormalDist.mk μ σ).sample u := by
  refine ⟨rfl, rfl, ?_⟩
  simp only [NormalizingFlow.toDistribution, NormalizingFlow.sample,
    AffineTransform.toTransform, NormalDist.toDistribution,
    AffineTransform.forward, AffineTransform.inv]
  field_simp

/-- Witness for C3 at `loc = 2`, `scale = 3`, base `N(0, 1)`, `u = 0`. -/
theorem flow_sampling_witness :
    (3 : ℝ) ≠ 0 ∧
    ((NormalizingFlow.mk (AffineTransform.mk 2 3).toTransform
        (NormalDist.mk 0 1).toDistribution).toDistribution.sample 0 =
      (AffineTransform.mk 2 3).inv ((NormalDist.mk 0 1).sample 0) ∧
     (NormalizingFlow.mk (AffineTransform.mk 2 3).toTransform
        (NormalDist.mk 0 1).toDistribution).toDistribution.log_prob =
      (NormalizingFlow.mk (AffineTransform.mk 2 3).toTransform
        (NormalDist.mk 0 1).toDistribution).log_prob ∧
     (AffineTransform.mk 2 3).forward
        ((NormalizingFlow.mk (AffineTransform.mk 2 3).toTransform
          (NormalDist.mk 0 1).toDistribution).toDistribution.sample 0) =
      (NormalDist.mk 0 1).sample 0) :=
  ⟨by norm_num, flow_sampling 2 3 0 1 0 (by norm_num)⟩

/-- Parameters of the `GaussianModel` hyper-network from the notebook:
`Linear(context, 64) → ReLU → Linear(64, 2)`, the last layer producing
`(mu, log_sigma)`. -/
structure GaussianModelParams (context : ℕ) where
  w1 : Fin 64 → Fin context → ℝ
  b1 : Fin 64 → ℝ
  w2 : Fin 2 → Fin 64 → ℝ
  b2 : Fin 2 → ℝ

/-- A `torch.nn.Linear` layer: `y_i = (∑ j, W_ij x_j) + b_i`. -/
noncomputable def linearLayer {m n : ℕ} (w : Fin m → Fin n → ℝ) (b : Fin m → ℝ)
    (x : Fin n → ℝ) : Fin m → ℝ :=
  fun i => (∑ j, w i j * x j) + b i

/-- The `torch.nn.ReLU` activation. -/
noncomputable def relu (x : ℝ) : ℝ :=
  max x 0

/-- The `self.hyper` network of `GaussianModel`: two linear layers with a ReLU in
between. -/
noncomputable def GaussianModel.hyper {context : ℕ} (φ : GaussianModelParams context)
    (c : Fin context → ℝ) : Fin 2 → ℝ :=
  linearLayer φ.w2 φ.b2 (fun i => relu (linearLayer φ.w1 φ.b1 c i))

/-- `GaussianModel.forward`: run the hyper-network on the context, unbind its output
into `(mu, log_sigma)`, and return `Normal(mu, log_sigma.exp())`. -/
noncomputable def GaussianModel.forward {context : ℕ} (φ : GaussianModelParams context)
    (c : Fin context → ℝ) : NormalDist :=
  NormalDist.mk (GaussianModel.hyper φ c 0) (Real.exp (GaussianModel.hyper φ c 1))

/-- Modelled from the spec: `zuko.flows.LazyTransform` (the class itself is not in the
excerpt) — a module holding parameters and a recipe, whose forward pass with a
context returns a concrete transformation built by the recipe. -/
structure LazyTransform (P C : Type) where
  params : P
  recipe : P → C → Transform

/-- Forward pass of a lazy transform: build the concrete transform from the stored
parameters and the provided context. -/
noncomputable def LazyTransform.forward {P C : Type} (m : LazyTransform P C) (c : C) :
    Transform :=
  m.recipe m.params c

/-- C4: invoking a lazy module with a context returns a concrete instance whose
parameters are computed from that context: `GaussianModel.forward c` is the Normal
distribution with location `hyper(c)_0` and scale `exp (hyper(c)_1)`, on which
`log_prob` and `sample` are callable and evaluate with those context-dependent
parameters; likewise a `LazyTransform` invoked with a context returns the concrete
transform built by its recipe, with `forward`, `inv` and `log_abs_det_jacobian`
callable on it. -/
theorem lazy_forward_builds_from_context {context : ℕ} {P C : Type}
    (φ : GaussianModelParams context) (c : Fin context → ℝ) (x u : ℝ)
    (m : LazyTransform P C) (ctx : C) :
    GaussianModel.forward φ c =
      NormalDist.mk (GaussianModel.hyper φ c 0)
        (Real.exp (GaussianModel.hyper φ c 1)) ∧
    (GaussianModel.forward φ c).log_prob x =
      -((x - GaussianModel.hyper φ c 0) ^ 2) /
          (2 * Real.exp (GaussianModel.hyper φ c 1) ^ 2) -
        GaussianModel.hyper φ c 1 - Real.log (Real.sqrt (2 * π)) ∧
    (GaussianModel.forward φ c).sample u =
      GaussianModel.hyper φ c 0 + Real.exp (GaussianModel.hyper φ c 1) * u ∧
    (m.forward ctx).forward = (m.recipe m.params ctx).forward ∧
    (m.forward ctx).inv = (m.recipe m.params ctx).inv ∧
    (m.forward ctx).log_abs_det_jacobian = (m.recipe m.params ctx).log_abs_det_jacobian := by
  refine ⟨rfl, ?_, rfl, rfl, rfl, rfl⟩
  simp [GaussianModel.forward, NormalDist.log_prob, Real.log_exp]

/-- C9: for every context vector, the scale of the Normal distribution built by
`GaussianModel.forward` is strictly positive, because it is `exp (log_sigma)`. -/
theorem gaussian_model_scale_pos {context : ℕ} (φ : GaussianModelParams context)
    (c : Fin context → ℝ) :
    0 < (GaussianModel.forward φ c).scale :=
  Real.exp_pos _

/-- Parameter values along the notebook training loop: `upd n` is the update the
optimizer applies to the parameters after iteration `n`. -/
noncomputable def paramsAt {context : ℕ}
    (upd : ℕ → GaussianModelParams context → GaussianModelParams context)
    (φ0 : GaussianModelParams context) : ℕ → GaussianModelParams context
  | 0 => φ0
  | n + 1 => upd n (paramsAt upd φ0 n)

/-- The distribution built by the loop's `model(c)` call at iteration `n`: a fresh
`GaussianModel.forward` on the parameters current at that iteration. -/
noncomputable def distAt {context : ℕ}
    (upd : ℕ → GaussianModelParams context → GaussianModelParams context)
    (φ0 : GaussianModelParams context) (c : ℕ → Fin context → ℝ) (n : ℕ) : NormalDist :=
  GaussianModel.forward (paramsAt upd φ0 n) (c n)

/-- C5: every iteration of the training loop builds a fresh concrete distribution
from the parameter values current at that call: the instance used at iteration `n`
is `GaussianModel.forward` of `paramsAt n`, and at iteration `n + 1` its parameters
are computed from the updated parameters `upd n (paramsAt n)` — not from the initial
ones. -/
theorem loop_rebuilds_each_iteration {context : ℕ}
    (upd : ℕ → GaussianModelParams context → GaussianModelParams context)
    (φ0 : GaussianModelParams context) (c : ℕ → Fin context → ℝ) (n : ℕ) :
    distAt upd φ0 c n = GaussianModel.forward (paramsAt upd φ0 n) (c n) ∧
    distAt upd φ0 c (n + 1) =
      GaussianModel.forward (upd n (paramsAt upd φ0 n)) (c (n + 1)) ∧
    (distAt upd φ0 c (n + 1)).loc =
      GaussianModel.hyper (upd n (paramsAt upd φ0 n)) (c (n + 1)) 0 ∧
    (distAt upd φ0 c (n + 1)).scale =
      Real.exp (GaussianModel.hyper (upd n (paramsAt upd φ0 n)) (c (n + 1)) 1) :=
  ⟨rfl, rfl, rfl, rfl⟩

/-- C7: a distribution instance built by an earlier forward call keeps the parameter
values it was built with: after an optimizer update `upd`, the old instance
`GaussianModel.forward φ c` still has location `hyper φ c 0` and scale
`exp (hyper φ c 1)`, and whenever the update changes the hyper-network output, only
a new forward call yields a distribution reflecting it — the new instance differs
from the old one. -/
theorem built_instance_frozen {context : ℕ} (φ : GaussianModelParams context)
    (upd : GaussianModelParams context → GaussianModelParams context)
    (c : Fin context → ℝ)
    (hne : GaussianModel.hyper (upd φ) c 0 ≠ GaussianModel.hyper φ c 0) :
    (GaussianModel.forward φ c).loc = GaussianModel.hyper φ c 0 ∧
    (GaussianModel.forward φ c).scale = Real.exp (GaussianModel.hyper φ c 1) ∧
    GaussianModel.forward (upd φ) c ≠ GaussianModel.forward φ c := by
  refine ⟨rfl, rfl, fun h => hne ?_⟩
  exact congrArg NormalDist.loc h

/-- All-zero parameters of a `GaussianModel` with context size 1, used to witness the
frame property. -/
noncomputable def zeroParams : GaussianModelParams 1 :=
  ⟨fun _ _ => 0, fun _ => 0, fun _ _ => 0, fun _ => 0⟩

/-- A parameter update that shifts the second-layer bias by one, standing for one
optimizer step. -/
noncomputable def bumpB2 (φ : GaussianModelParams 1) : GaussianModelParams 1 :=
  ⟨φ.w1, φ.b1, φ.w2, fun j => φ.b2 j + 1⟩

/-- Witness for C7: with all-zero parameters and the bias bump as the optimizer step,
the hyper-network output changes, the old instance keeps its parameters, and the
rebuilt instance differs. -/
theorem built_instance_frozen_witness :
    (GaussianModel.hyper (bumpB2 zeroParams) (fun _ => 0) 0 ≠
       GaussianModel.hyper zeroParams (fun _ => 0) 0) ∧
    ((GaussianModel.forward zeroParams (fun _ => 0)).loc =
       GaussianModel.hyper zeroParams (fun _ => 0) 0 ∧
     (GaussianModel.forward zeroParams (fun _ => 0)).scale =
       Real.exp (GaussianModel.hyper zeroParams (fun _ => 0) 1) ∧
     GaussianModel.forward (bumpB2 zeroParams) (fun _ => 0) ≠
       GaussianModel.forward zeroParams (fun _ => 0)) :=
  have h : GaussianModel.hyper (bumpB2 zeroParams) (fun _ => 0) 0 ≠
      GaussianModel.hyper zeroParams (fun _ => 0) 0 := by
    simp [GaussianModel.hyper, linearLayer, relu, bumpB2, zeroParams]
  ⟨h, built_instance_frozen zeroParams bumpB2 (fun _ => 0) h⟩

/-- Modelled from the spec: a tensor value tagged with whether it is part of a
computation graph (has a `grad_fn`), as the notebook describes for `log_prob`,
`sample` and `rsample`. Arithmetic propagates graph membership; `detach` severs it. -/
structure TTensor where
  val : ℝ
  requiresGrad : Bool

/-- Tracked addition. -/
noncomputable def TTensor.add (a b : TTensor) : TTensor :=
  ⟨a.val + b.val, a.requiresGrad || b.requiresGrad⟩

/-- Tracked subtraction. -/
noncomputable def TTensor.sub (a b : TTensor) : TTensor :=
  ⟨a.val - b.val, a.requiresGrad || b.requiresGrad⟩

/-- Tracked multiplication. -/
noncomputable def TTensor.mul (a b : TTensor) : TTensor :=
  ⟨a.val * b.val, a.requiresGrad || b.requiresGrad⟩

/-- Tracked division. -/
noncomputable def TTensor.div (a b : TTensor) : TTensor :=
  ⟨a.val / b.val, a.requiresGrad || b.requiresGrad⟩

/-- Tracked negation. -/
noncomputable def TTensor.neg (a : TTensor) : TTensor :=
  ⟨-a.val, a.requiresGrad⟩

/-- Tracked squaring. -/
noncomputable def TTensor.sq (a : TTensor) : TTensor :=
  ⟨a.val ^ 2, a.requiresGrad⟩

/-- Tracked logarithm. -/
noncomputable def TTensor.log (a : TTensor) : TTensor :=
  ⟨Real.log a.val, a.requiresGrad⟩

/-- A fresh data tensor or constant: not part of any computation graph. -/
noncomputable def TTensor.ofReal (x : ℝ) : TTensor :=
  ⟨x, false⟩

/-- Severs the value from the computation graph. -/
noncomputable def TTensor.detach (a : TTensor) : TTensor :=
  ⟨a.val, false⟩

/-- `Normal.log_prob` computed on tracked parameter tensors, term by term as in
`NormalDist.log_prob`. -/
noncomputable def tracked_log_prob (loc scale : TTensor) (x : TTensor) : TTensor :=
  (((x.sub loc).sq.neg.div ((TTensor.ofReal 2).mul scale.sq)).sub scale.log).sub
    (TTensor.ofReal (Real.log (Real.sqrt (2 * π))))

/-- `Normal.rsample` on tracked parameter tensors: `loc + scale * u` stays in the
computation graph of the parameters. -/
noncomputable def tracked_rsample (loc scale : TTensor) (u : ℝ) : TTensor :=
  loc.add (scale.mul (TTensor.ofReal u))

/-- `Normal.sample` on tracked parameter tensors: the same value as `rsample`, but
detached from the computation graph. -/
noncomputable def tracked_sample (loc scale : TTensor) (u : ℝ) : TTensor :=
  (tracked_rsample loc scale u).detach

/-- C8: when the distribution's parameters are trainable (`requires_grad`), the
values of `log_prob` and `rsample` carry the computation graph — in particular the
loss `-log_prob x` does, so backpropagation is supported — while the value of
`sample` carries none; numerically the tracked `log_prob` agrees with
`NormalDist.log_prob`, which is a differentiable function of both the location and
the scale parameter. -/
theorem gradient_graph_tracking (loc scale : TTensor) (x u : ℝ)
    (hloc : loc.requiresGrad = true) (hσ : scale.val ≠ 0) :
    (tracked_log_prob loc scale (TTensor.ofReal x)).requiresGrad = true ∧
    (tracked_log_prob loc scale (TTensor.ofReal x)).neg.requiresGrad = true ∧
    (tracked_rsample loc scale u).requiresGrad = true ∧
    (tracked_sample loc scale u).requiresGrad = false ∧
    (tracked_log_prob loc scale (TTensor.ofReal x)).val =
      (NormalDist.mk loc.val scale.val).log_prob x ∧
    DifferentiableAt ℝ (fun μ => (NormalDist.mk μ scale.val).log_prob x) loc.val ∧
    DifferentiableAt ℝ (fun σ => (NormalDist.mk loc.val σ).log_prob x) scale.val ∧
    DifferentiableAt ℝ (fun μ => (NormalDist.mk μ scale.val).rsample u) loc.val := by
  refine ⟨?_, ?_, ?_, rfl, rfl, ?_, ?_, ?_⟩
  · simp [tracked_log_prob, TTensor.sub, TTensor.sq, TTensor.neg, TTensor.div,
      TTensor.mul, TTensor.log, TTensor.ofReal, hloc]
  · simp [tracked_log_prob, TTensor.sub, TTensor.sq, TTensor.neg, TTensor.div,
      TTensor.mul, TTensor.log, TTensor.ofReal, hloc]
  · simp [tracked_rsample, TTensor.add, TTensor.mul, TTensor.ofReal, hloc]
  · simp only [NormalDist.log_prob]
    exact (((((differentiableAt_const x).sub differentiableAt_id).pow 2).neg.div_const
      _).sub (differentiableAt_const _)).sub (differentiableAt_const _)
  · simp only [NormalDist.log_prob]
    have hden : DifferentiableAt ℝ (fun σ : ℝ => 2 * σ ^ 2) scale.val :=
      (differentiableAt_id.pow 2).const_mul 2
    have hne : (2 : ℝ) * scale.val ^ 2 ≠ 0 :=
      mul_ne_zero two_ne_zero (pow_ne_zero 2 hσ)
    exact (((differentiableAt_const _).div hden hne).sub
      (Real.differentiableAt_log hσ)).sub (differentiableAt_const _)
  · simp only [NormalDist.rsample]
    exact differentiableAt_id.add_const _

/-- Witness for C8 at trainable parameters `loc = ⟨0, true⟩`, `scale = ⟨1, true⟩`
and data `x = 0`, `u = 0`. -/
theorem gradient_graph_tracking_witness :
    ((TTensor.mk 0 true).requiresGrad = true ∧ (TTensor.mk 1 true).val ≠ 0) ∧
    ((tracked_log_prob (TTensor.mk 0 true) (TTensor.mk 1 true)
        (TTensor.ofReal 0)).requiresGrad = true ∧
     (tracked_log_prob (TTensor.mk 0 true) (TTensor.mk 1 true)
        (TTensor.ofReal 0)).neg.requiresGrad = true ∧
     (tracked_rsample (TTensor.mk 0 true) (TTensor.mk 1 true) 0).requiresGrad = true ∧
     (tracked_sample (TTensor.mk 0 true) (TTensor.mk 1 true) 0).requiresGrad = false ∧
     (tracked_log_prob (TTensor.mk 0 true) (TTensor.mk 1 true)
        (TTensor.ofReal 0)).val =
       (NormalDist.mk (TTensor.mk 0 true).val (TTensor.mk 1 true).val).log_prob 0 ∧
     DifferentiableAt ℝ
       (fun μ => (NormalDist.mk μ (TTensor.mk 1 true).val).log_prob 0)
       (TTensor.mk 0 true).val ∧
     DifferentiableAt ℝ
       (fun σ => (NormalDist.mk (TTensor.mk 0 true).val σ).log_prob 0)
       (TTensor.mk 1 true).val ∧
     DifferentiableAt ℝ
       (fun μ => (NormalDist.mk μ (TTensor.mk 1 true).val).rsample 0)
       (TTensor.mk 0 true).val) :=
  ⟨⟨rfl, by norm_num⟩,
   gradient_graph_tracking (TTensor.mk 0 true) (TTensor.mk 1 true) 0 0 rfl (by norm_num)⟩

end Zuko
